import Mathlib

set_option maxHeartbeats 1000000
set_option maxRecDepth 4000

/-!  Verification of the proglog progress-logger core (src/proglog/proglog.py).

Shallow embedding conventions: Python dicts are association lists with
string keys (key order = insertion order, keys distinct in every reachable
state, as for Python dicts); dynamic values are `Value`; a Python exception
is the `raised` constructor of `Py` / `CallResult`, carrying the state at
the raise point (Python mutates the logger in place before an exception
propagates, so the partial mutations stay visible).  The raise messages name
the Python exception class raised at the corresponding source line.
-/

/-- A dynamic Python value as used by the logger: an int, a string, or None. -/
inductive Value where
  | int (n : Int)
  | str (s : String)
  | none
  deriving DecidableEq, Repr

/-- A keyword-argument batch / plain dict: keys with values, in order. -/
abbrev Kw := List (String × Value)

/-- One bar record, e.g. dict(title=..., index=..., total=..., message=...). -/
abbrev BarDict := List (String × Value)

/-- The bar registry self.state["bars"]: bar name to bar record. -/
abbrev Bars := List (String × BarDict)

/-- One invocation of `self.bars_callback(bar, attr, value, old_value)`
(ProgressBarLogger.__call__, line 167). -/
structure BarEvent where
  bar : String
  attr : String
  value : Value
  old : Value
  deriving DecidableEq, Repr

/-- The three shapes `ignored_bars` can take after __init__ (lines 89-91):
None, the string "all_others", or a set built from a list/tuple. -/
inductive IgnoredBars where
  | noneV
  | allOthers
  | ofSet (l : List String)
  deriving DecidableEq, Repr

/-- Outcome of running a block of Python statements: normal completion, or a
propagating exception together with the state mutated so far. -/
inductive Py (σ : Type) where
  | ok (s : σ)
  | raised (msg : String) (s : σ)
  deriving DecidableEq, Repr

/-- `leadsWith a b` is true when `a` is an initial segment of `b`. -/
def leadsWith : List Char → List Char → Bool
  | [], _ => true
  | _ :: _, [] => false
  | a :: as, b :: bs => a == b && leadsWith as bs

/-- Python substring containment `needle in hay` (for the membership test on
the string "all_others" at lines 120/159/162). -/
def hasSub (needle : List Char) : List Char → Bool
  | [] => leadsWith needle []
  | c :: rest => leadsWith needle (c :: rest) || hasSub needle rest

/-- Python key.endswith("total"), the sort key of line 155: a string ends
with "total" exactly when its reversed character list starts with "latot". -/
def endsWithTotal (key : String) : Bool :=
  leadsWith "total".toList.reverse key.toList.reverse

/-- Models sorted(kw.items(), key=lambda kv: not kv[0].endswith("total"))
(line 155).  The Python sort is stable and the key is Boolean (False < True),
so the sorted list is exactly: the items whose key ends with "total", in
caller order, followed by the remaining items, in caller order. -/
def sortItems (kw : Kw) : Kw :=
  kw.filter (fun p => endsWithTotal p.1) ++ kw.filter (fun p => !endsWithTotal p.1)

/-- Python key.split("__") on the character list of the key: greedy
left-to-right splitting at non-overlapping occurrences of "__". -/
def splitParts : List Char → List (List Char)
  | [] => [[]]
  | [c] => [[c]]
  | c₁ :: c₂ :: rest =>
    if c₁ = '_' ∧ c₂ = '_' then [] :: splitParts rest
    else
      match splitParts (c₂ :: rest) with
      | [] => [[c₁]]
      | p :: ps => (c₁ :: p) :: ps

/-- Interleaves "__" back between parts; inverse of `splitParts`. -/
def joinParts : List (List Char) → List Char
  | [] => []
  | [p] => p
  | p :: q :: ps => p ++ '_' :: '_' :: joinParts (q :: ps)

/-- The Python membership test `bar in self.ignored_bars` exactly as executed
at lines 120, 159 and 162: a TypeError when ignored_bars is None, a substring
test when it is the string "all_others", set membership when it is a set. -/
def pyMem (bar : String) : IgnoredBars → Except String Bool
  | .noneV => .error "TypeError"
  | .allOthers => .ok (hasSub bar.toList "all_others".toList)
  | .ofSet l => .ok (l.contains bar)

/-- ProgressBarLogger.bar_is_ignored (lines 99-105).  Note the set case
returns true for bars NOT in the set.  Neither __call__ nor iter_bar calls
this method; they run the raw membership test `pyMem` instead. -/
def barIsIgnored (ign : IgnoredBars) (bars : Bars) (bar : String) : Bool :=
  match ign with
  | .noneV => false
  | .allOthers => !(bars.any (fun p => p.1 == bar))
  | .ofSet l => !(l.contains bar)

/-- dict(title=bar, index=-1, total=None, message=None) (lines 86, 163-164). -/
def freshBar (bar : String) : BarDict :=
  [("title", Value.str bar), ("index", Value.int (-1)),
   ("total", Value.none), ("message", Value.none)]

/-- Assignment d[k] = v for a key already present in the dict (line 166 runs
only after the lookup of line 165 succeeded). -/
def setD (d : BarDict) (k : String) (v : Value) : BarDict :=
  d.map (fun p => if p.1 = k then (p.1, v) else p)

/-- self.bars[bar][attr] = value (line 166). -/
def setBarAttr (bars : Bars) (bar attr : String) (v : Value) : Bars :=
  bars.map (fun p => if p.1 = bar then (p.1, setD p.2 attr v) else p)

/-- One dict.update step: insert-or-assign preserving insertion order. -/
def dictInsert (d : Kw) (k : String) (v : Value) : Kw :=
  if d.any (fun p => p.1 == k) then d.map (fun p => if p.1 = k then (p.1, v) else p)
  else d ++ [(k, v)]

/-- self.state.update(kw) (line 168) restricted to the plain (non-bars) part
of the state. -/
def updatePlain (d : Kw) (kw : Kw) : Kw :=
  kw.foldl (fun acc p => dictInsert acc p.1 p.2) d

/-- One iteration of the for-loop of ProgressBarLogger.__call__
(lines 156-167), for the item (key, value).  `cb` is the dynamically
dispatched self.bars_callback acting on subclass state σ.  The threaded
state is (registry, remaining kw batch, σ).  Raise messages: ValueError from
unpacking a split with more than two parts (line 158), TypeError from the
membership test on None (line 159), KeyError from the dict lookup of
line 165 (or, in the subclass callback, from its own dict accesses). -/
def processItem {σ : Type} (ign : IgnoredBars) (cb : Bars → σ → BarEvent → Py σ)
    (bars : Bars) (kw : Kw) (ext : σ) (key : String) (value : Value) :
    Py (Bars × Kw × σ) :=
  match splitParts key.toList with
  | [_] => Py.ok (bars, kw, ext)
  | [b, a] =>
    let bar : String := ⟨b⟩
    let attr : String := ⟨a⟩
    match pyMem bar ign with
    | .error m => Py.raised m (bars, kw, ext)
    | .ok true => Py.ok (bars, kw, ext)
    | .ok false =>
      let kw₂ := kw.filter (fun p => p.1 != key)
      match
        (if bars.any (fun p => p.1 == bar) then Except.ok bars
         else
           match pyMem bar ign with
           | .error m => Except.error m
           | .ok true => Except.ok bars
           | .ok false => Except.ok (bars ++ [(bar, freshBar bar)])) with
      | .error m => Py.raised m (bars, kw₂, ext)
      | .ok bars₂ =>
        match List.lookup bar bars₂ with
        | Option.none => Py.raised "KeyError" (bars₂, kw₂, ext)
        | Option.some d =>
          match List.lookup attr d with
          | Option.none => Py.raised "KeyError" (bars₂, kw₂, ext)
          | Option.some old =>
            let bars₃ := setBarAttr bars₂ bar attr value
            match cb bars₃ ext ⟨bar, attr, value, old⟩ with
            | Py.ok ext₂ => Py.ok (bars₃, kw₂, ext₂)
            | Py.raised m ext₂ => Py.raised m (bars₃, kw₂, ext₂)
  | _ => Py.raised "ValueError" (bars, kw, ext)

/-- The whole for-loop of __call__ over the sorted items. -/
def processItems {σ : Type} (ign : IgnoredBars) (cb : Bars → σ → BarEvent → Py σ) :
    List (String × Value) → Bars → Kw → σ → Py (Bars × Kw × σ)
  | [], bars, kw, ext => Py.ok (bars, kw, ext)
  | (key, v) :: rest, bars, kw, ext =>
    match processItem ign cb bars kw ext key v with
    | Py.ok (bars₂, kw₂, ext₂) => processItems ign cb rest bars₂ kw₂ ext₂
    | Py.raised m s => Py.raised m s

/-- ProgressBarLogger.bars_callback (lines 132-151) does nothing; the event
list records its invocations, in order. -/
def baseCb : Bars → List BarEvent → BarEvent → Py (List BarEvent) :=
  fun _ tr e => Py.ok (tr ++ [e])

/-- Logger state: `plain` is self.state minus the reserved "bars" entry,
which is modelled separately as `bars` (= self.state["bars"]). -/
structure LoggerState where
  plain : Kw
  bars : Bars
  deriving DecidableEq, Repr

/-- Result of one __call__: on normal completion, the new state, the
bars_callback invocations in order, and the batch passed to self.callback
(line 169, i.e. kw after the pops of line 161); on an exception, the state
as mutated up to the raise (self.callback is not reached). -/
inductive CallResult where
  | ok (state : LoggerState) (barCalls : List BarEvent) (callbackKw : Kw)
  | raised (msg : String) (state : LoggerState) (barCalls : List BarEvent)
  deriving DecidableEq, Repr

/-- ProgressBarLogger.__call__ (lines 153-169). -/
def applyCall (ign : IgnoredBars) (st : LoggerState) (kw : Kw) : CallResult :=
  match processItems ign baseCb (sortItems kw) st.bars kw [] with
  | Py.raised m (bars, _, tr) => CallResult.raised m ⟨st.plain, bars⟩ tr
  | Py.ok (bars, kwRest, tr) =>
    CallResult.ok ⟨updatePlain st.plain kwRest, bars⟩ tr kwRest

/-- The generator body of iter_bar (lines 125-129), fully consumed.  `n`
counts the elements yielded so far (the Python loop variable `i` equals n-1
after the loop and is unbound when the iterable was empty, hence the
NameError raised on exhaustion of an empty sequence). -/
def iterBarLoop (ign : IgnoredBars) (bar : String) :
    LoggerState → List BarEvent → Nat → List Value → List Value →
    Py (LoggerState × List BarEvent × List Value)
  | st, tr, n, [], ys =>
    if n = 0 then Py.raised "NameError" (st, tr, ys)
    else
      match applyCall ign st [(bar ++ "__index", Value.int n)] with
      | CallResult.ok st₂ tr₂ _ => Py.ok (st₂, tr ++ tr₂, ys)
      | CallResult.raised m st₂ tr₂ => Py.raised m (st₂, tr ++ tr₂, ys)
  | st, tr, n, x :: xs, ys =>
    match applyCall ign st [(bar ++ "__index", Value.int n)] with
    | CallResult.ok st₂ tr₂ _ =>
      iterBarLoop ign bar st₂ (tr ++ tr₂) (n + 1) xs (ys ++ [x])
    | CallResult.raised m st₂ tr₂ => Py.raised m (st₂, tr ++ tr₂, ys)

/-- ProgressBarLogger.iter_bar (lines 107-130), called with the single
keyword `bar=xs` and the returned iterator fully consumed.  Result: final
state, all bars_callback invocations across the updates, and the yielded
elements.  If the bar name is in ignored_bars the original iterable is
returned unchanged (line 121); a list has __len__, so otherwise a total
update is applied before iteration starts (lines 122-123). -/
def iterBarRun (ign : IgnoredBars) (st : LoggerState) (bar : String)
    (xs : List Value) : Py (LoggerState × List BarEvent × List Value) :=
  match pyMem bar ign with
  | .error m => Py.raised m (st, [], [])
  | .ok true => Py.ok (st, [], xs)
  | .ok false =>
    match applyCall ign st [(bar ++ "__total", Value.int xs.length)] with
    | CallResult.raised m st₂ tr₂ => Py.raised m (st₂, tr₂, [])
    | CallResult.ok st₂ tr₂ _ => iterBarLoop ign bar st₂ tr₂ 0 xs []

/-- Calls made to the tqdm render backend, in order.  `handle` identifies
the tqdm bar object: each create yields a fresh handle. -/
inductive RenderEvent where
  | create (bar : String) (handle : Nat) (total : Value) (title : Value)
      (message : Value)
  | close (bar : String) (handle : Nat)
  | advance (bar : String) (handle : Nat) (delta : Int)
  | setMessage (bar : String) (handle : Nat) (message : Value)
  | write (message : Value)
  deriving DecidableEq, Repr

/-- Extra state of TqdmProgressBarLogger: self.tqdm_bars maps each bar name
to its live tqdm handle or None; `nextId` supplies fresh handles; `events`
records the backend calls. -/
structure TqdmExtra where
  tqdmBars : List (String × Option Nat)
  nextId : Nat
  events : List RenderEvent
  deriving DecidableEq, Repr

/-- Assignment self.tqdm_bars[bar] = h (insert-or-assign). -/
def setHandle (m : List (String × Option Nat)) (bar : String) (h : Option Nat) :
    List (String × Option Nat) :=
  if m.any (fun p => p.1 == bar) then
    m.map (fun p => if p.1 = bar then (p.1, h) else p)
  else m ++ [(bar, h)]

/-- TqdmProgressBarLogger.close_tqdm_bar (lines 229-232): emits close on the
live handle and stores None.  A missing name is a KeyError, a stored None an
AttributeError (None.close()). -/
def closeTqdmBar (t : TqdmExtra) (bar : String) : Py TqdmExtra :=
  match List.lookup bar t.tqdmBars with
  | Option.none => Py.raised "KeyError" t
  | Option.some Option.none => Py.raised "AttributeError" t
  | Option.some (Option.some h) =>
    Py.ok { t with events := t.events ++ [RenderEvent.close bar h],
                   tqdmBars := setHandle t.tqdmBars bar Option.none }

/-- TqdmProgressBarLogger.new_tqdm_bar (lines 218-228): closes any live bar
under this name, then creates a fresh tqdm bar from the registry record
(infos = self.bars[bar]; total/title/message are its dict entries). -/
def newTqdmBar (bars : Bars) (t : TqdmExtra) (bar : String) : Py TqdmExtra :=
  let live := match List.lookup bar t.tqdmBars with
              | Option.some (Option.some _) => true
              | _ => false
  match (bif live then closeTqdmBar t bar else Py.ok t) with
  | Py.raised m t₂ => Py.raised m t₂
  | Py.ok t₂ =>
    match List.lookup bar bars with
    | Option.none => Py.raised "KeyError" t₂
    | Option.some infos =>
      match List.lookup "total" infos, List.lookup "title" infos,
            List.lookup "message" infos with
      | Option.some tot, Option.some ttl, Option.some msg =>
        Py.ok { tqdmBars := setHandle t₂.tqdmBars bar (Option.some t₂.nextId),
                nextId := t₂.nextId + 1,
                events := t₂.events ++ [RenderEvent.create bar t₂.nextId tot ttl msg] }
      | _, _, _ => Py.raised "KeyError" t₂

/-- Python truthiness of the values occurring here (`if total`, line 240). -/
def pyTruthy : Value → Bool
  | Value.int n => n != 0
  | Value.str s => s != ""
  | Value.none => false

/-- Python `a >= b`: defined on ints, a TypeError otherwise. -/
def pyGe (a b : Value) : Except String Bool :=
  match a, b with
  | Value.int x, Value.int y => Except.ok (decide (y ≤ x))
  | _, _ => Except.error "TypeError"

/-- Python `a - b` on ints. -/
def pySub (a b : Value) : Except String Int :=
  match a, b with
  | Value.int x, Value.int y => Except.ok (x - y)
  | _, _ => Except.error "TypeError"

/-- Python `a + 1` on ints. -/
def pyAdd1 (a : Value) : Except String Int :=
  match a with
  | Value.int x => Except.ok (x + 1)
  | _ => Except.error "TypeError"

/-- self.tqdm_bars[bar].update(d): KeyError when the name is missing,
AttributeError when the stored handle is None. -/
def advanceOn (t : TqdmExtra) (bar : String) (d : Int) : Py TqdmExtra :=
  match List.lookup bar t.tqdmBars with
  | Option.none => Py.raised "KeyError" t
  | Option.some Option.none => Py.raised "AttributeError" t
  | Option.some (Option.some h) =>
    Py.ok { t with events := t.events ++ [RenderEvent.advance bar h d] }

/-- self.tqdm_bars[bar].set_postfix(value) (line 250). -/
def setMessageOn (t : TqdmExtra) (bar : String) (v : Value) : Py TqdmExtra :=
  match List.lookup bar t.tqdmBars with
  | Option.none => Py.raised "KeyError" t
  | Option.some Option.none => Py.raised "AttributeError" t
  | Option.some (Option.some h) =>
    Py.ok { t with events := t.events ++ [RenderEvent.setMessage bar h v] }

/-- TqdmProgressBarLogger.bars_callback (lines 234-250), called by __call__
after the registry mutation, so `bars` is the already-updated registry. -/
def tqdmBarsCallback (bars : Bars) (t : TqdmExtra) (e : BarEvent) :
    Py TqdmExtra :=
  let needNew := match List.lookup e.bar t.tqdmBars with
                 | Option.some (Option.some _) => false
                 | _ => true
  match (bif needNew then newTqdmBar bars t e.bar else Py.ok t) with
  | Py.raised m t₂ => Py.raised m t₂
  | Py.ok t₂ =>
    bif e.attr == "index" then
      match pyGe e.value e.old with
      | Except.error m => Py.raised m t₂
      | Except.ok true =>
        match List.lookup e.bar bars with
        | Option.none => Py.raised "KeyError" t₂
        | Option.some infos =>
          match List.lookup "total" infos with
          | Option.none => Py.raised "KeyError" t₂
          | Option.some tot =>
            bif pyTruthy tot then
              match pyGe e.value tot with
              | Except.error m => Py.raised m t₂
              | Except.ok true => closeTqdmBar t₂ e.bar
              | Except.ok false =>
                match pySub e.value e.old with
                | Except.error m => Py.raised m t₂
                | Except.ok d => advanceOn t₂ e.bar d
            else
              match pySub e.value e.old with
              | Except.error m => Py.raised m t₂
              | Except.ok d => advanceOn t₂ e.bar d
      | Except.ok false =>
        match newTqdmBar bars t₂ e.bar with
        | Py.raised m t₃ => Py.raised m t₃
        | Py.ok t₃ =>
          match pyAdd1 e.value with
          | Except.error m => Py.raised m t₃
          | Except.ok d => advanceOn t₃ e.bar d
    else bif e.attr == "message" then setMessageOn t₂ e.bar e.value
    else Py.ok t₂

/-- TqdmProgressBarLogger.callback (lines 251-253): writes the "message"
value to the console when print_messages is set and the value is truthy. -/
def tqdmCallback (printMessages : Bool) (t : TqdmExtra) (kw : Kw) : TqdmExtra :=
  match List.lookup "message" kw with
  | Option.some v =>
    if printMessages && pyTruthy v then
      { t with events := t.events ++ [RenderEvent.write v] }
    else t
  | Option.none => t

/-- Full state of a TqdmProgressBarLogger. -/
structure TqdmLoggerState where
  plain : Kw
  bars : Bars
  extra : TqdmExtra
  deriving DecidableEq, Repr

/-- Result of one __call__ on a TqdmProgressBarLogger. -/
inductive TqdmCallResult where
  | ok (st : TqdmLoggerState)
  | raised (msg : String) (st : TqdmLoggerState)
  deriving DecidableEq, Repr

/-- ProgressBarLogger.__call__ as dispatched on a TqdmProgressBarLogger:
identical loop, but self.bars_callback is tqdmBarsCallback and self.callback
is tqdmCallback. -/
def applyTqdmCall (printMessages : Bool) (ign : IgnoredBars)
    (st : TqdmLoggerState) (kw : Kw) : TqdmCallResult :=
  match processItems ign tqdmBarsCallback (sortItems kw) st.bars kw st.extra with
  | Py.raised m (bars, _, extra) => TqdmCallResult.raised m ⟨st.plain, bars, extra⟩
  | Py.ok (bars, kwRest, extra) =>
    TqdmCallResult.ok ⟨updatePlain st.plain kwRest, bars,
                       tqdmCallback printMessages extra kwRest⟩

/-- TqdmProgressBarLogger(bars=barNames, ignored_bars=ign):
ProgressBarLogger.__init__ builds the registry from the name list
(lines 84-88) and TqdmProgressBarLogger.__init__ initializes
self.tqdm_bars with None for every registered bar (lines 208-211). -/
def mkTqdmLogger (barNames : List String) : TqdmLoggerState :=
  { plain := [],
    bars := barNames.map (fun b => (b, freshBar b)),
    extra := { tqdmBars := barNames.map (fun b => (b, Option.none)),
               nextId := 0, events := [] } }

/-- A sequence of __call__ invocations, stopping at the first exception. -/
def applySeq (printMessages : Bool) (ign : IgnoredBars)
    (st : TqdmLoggerState) : List Kw → TqdmCallResult
  | [] => TqdmCallResult.ok st
  | kw :: rest =>
    match applyTqdmCall printMessages ign st kw with
    | TqdmCallResult.ok st₂ => applySeq printMessages ign st₂ rest
    | TqdmCallResult.raised m st₂ => TqdmCallResult.raised m st₂

/-- The render-backend calls produced by a sequence of __call__ invocations
that completes without an exception. -/
def applySeqEvents (printMessages : Bool) (ign : IgnoredBars)
    (st : TqdmLoggerState) (kws : List Kw) : Option (List RenderEvent) :=
  match applySeq printMessages ign st kws with
  | TqdmCallResult.ok st₂ => Option.some st₂.extra.events
  | TqdmCallResult.raised _ _ => Option.none

/-- An RqWorkerBarLogger instance, were one ever constructed. -/
structure RqWorkerBarLogger where
  job : Value
  state : LoggerState
  ignoredBars : IgnoredBars
  deriving DecidableEq, Repr

/-- RqWorkerBarLogger.__init__ (lines 266-271): its first statement is
`RqWorkerBarLogger.__init__(self, job)` - an unconditional call to itself
(with the defaults init_state=None, bars=None, ignored_bars=()), so line 270
is never reached.  `fuel` bounds the recursion depth (the Python recursion
limit); no amount of fuel produces an instance. -/
def rqWorkerBarLoggerInit (job : Value) (initState : Option Kw)
    (bars : Option (List String)) (ignoredBars : IgnoredBars) :
    Nat → Option RqWorkerBarLogger
  | 0 => Option.none
  | fuel + 1 =>
    rqWorkerBarLoggerInit job Option.none Option.none (.ofSet []) fuel

/-- The composite key a bar event came from: bar ++ "__" ++ attr. -/
def keyOf (e : BarEvent) : String := e.bar ++ "__" ++ e.attr

/-- Boolean membership in ignored_bars for the two shapes on which the
Python test returns (the None shape raises; the value false here is
irrelevant since a call that reaches the test on None never completes). -/
def memB (bar : String) : IgnoredBars → Bool
  | .noneV => false
  | .allOthers => hasSub bar.toList "all_others".toList
  | .ofSet l => l.contains bar

/-- Whether __call__ leaves the key in the batch: plain keys always stay;
a composite key stays exactly when its bar is skipped by the membership
test (the pop of line 161 happens only past the `continue` of line 160). -/
def keyKeptB (ign : IgnoredBars) (key : String) : Bool :=
  match splitParts key.toList with
  | [b, _] => memB (⟨b⟩ : String) ign
  | _ => true

/-- Claim C10: RqWorkerBarLogger.__init__ re-invokes itself unconditionally,
so construction never succeeds for any arguments: no recursion fuel yields
an instance. -/
theorem rqWorkerBarLoggerInit_never_returns (job : Value) (initState : Option Kw)
    (bars : Option (List String)) (ignoredBars : IgnoredBars) (fuel : Nat) :
    rqWorkerBarLoggerInit job initState bars ignoredBars fuel = Option.none := by
  induction fuel generalizing initState bars ignoredBars with
  | zero => rfl
  | succ n ih => exact ih Option.none Option.none (.ofSet [])

/-- Claim C6 (code bug): with ignored_bars=None (the documented "track every
bar" policy and the constructor default), __call__ on a bar-attribute update
raises a TypeError at the membership test `bar in self.ignored_bars`
(line 159) instead of creating and tracking the bar; no mutation happens. -/
theorem nonePolicy_call_raises_TypeError :
    applyCall .noneV ⟨[], []⟩ [("foo__index", Value.int 0)] =
      CallResult.raised "TypeError" ⟨[], []⟩ [] := by decide

/-- Claim C4 (code bug): with ignored_bars="all_others" and an empty
registry, apply(foo__index=0) does NOT drop the bar: the membership test of
lines 159/162 is a substring test "foo" in "all_others" (false), so the
bar is created in the registry and the bar hook fires, contradicting the
documented all_others policy (and bar_is_ignored, which __call__ never
calls). -/
theorem allOthers_call_creates_new_bar :
    applyCall .allOthers ⟨[], []⟩ [("foo__index", Value.int 0)] =
      CallResult.ok
        ⟨[], [("foo", [("title", Value.str "foo"), ("index", Value.int 0),
                       ("total", Value.none), ("message", Value.none)])]⟩
        [⟨"foo", "index", Value.int 0, Value.int (-1)⟩] [] := by decide

/-- Claim C2 (code bug): consuming iter_bar over an empty sequence raises a
NameError (the final update of line 129 reads the unbound loop variable
`i`), after the total-update 0 was applied; over a sequence of length 2 the
claimed behaviour does hold: one total-update equal to 2 first, an
index-update i before yielding element i, and a final index-update 2. -/
theorem iterBar_empty_raises_NameError :
    (iterBarRun (.ofSet []) ⟨[], []⟩ "b" [] =
      Py.raised "NameError"
        (⟨[], [("b", [("title", Value.str "b"), ("index", Value.int (-1)),
                      ("total", Value.int 0), ("message", Value.none)])]⟩,
         [⟨"b", "total", Value.int 0, Value.none⟩], []))
    ∧ (iterBarRun (.ofSet []) ⟨[], []⟩ "b" [Value.str "u", Value.str "v"] =
      Py.ok
        (⟨[], [("b", [("title", Value.str "b"), ("index", Value.int 2),
                      ("total", Value.int 2), ("message", Value.none)])]⟩,
         [⟨"b", "total", Value.int 2, Value.none⟩,
          ⟨"b", "index", Value.int 0, Value.int (-1)⟩,
          ⟨"b", "index", Value.int 1, Value.int 0⟩,
          ⟨"b", "index", Value.int 2, Value.int 1⟩],
         [Value.str "u", Value.str "v"])) := by decide

/-- Claim C7 (code bug): the scenario as specified - TqdmProgressBarLogger
with bars=["main"] and ignored_bars=None - raises a TypeError on its very
first apply(main__total=3) ("main" in None, line 159), so it never reaches
the advance/close logic; run instead with ignored_bars=() (the tqdm
constructor default) the scenario behaves as the claim describes: one
create, three advances of delta 1 (total advance sum 3), and exactly one
close, after the last call. -/
theorem tqdm_scenario_types_and_close :
    (applyTqdmCall true .noneV (mkTqdmLogger ["main"]) [("main__total", Value.int 3)] =
      TqdmCallResult.raised "TypeError" (mkTqdmLogger ["main"]))
    ∧ (applySeqEvents true (.ofSet []) (mkTqdmLogger ["main"])
        [[("main__total", Value.int 3)], [("main__index", Value.int 0)],
         [("main__index", Value.int 1)], [("main__index", Value.int 2)],
         [("main__index", Value.int 3)]] =
      Option.some
        [RenderEvent.create "main" 0 (Value.int 3) (Value.str "main") Value.none,
         RenderEvent.advance "main" 0 1, RenderEvent.advance "main" 0 1,
         RenderEvent.advance "main" 0 1, RenderEvent.close "main" 0]) := by decide

/-- Claim C5 counterexample: with ignored_bars={'a'} and bar 'a' in the
registry, apply(a__index=0) does NOT mutate the bar and fires no hook (the
its index stays -1 and the composite key is left in the batch): membership
in the set means skipped, not tracked. -/
theorem explicitSet_member_not_tracked :
    applyCall (.ofSet ["a"]) ⟨[], [("a", freshBar "a")]⟩ [("a__index", Value.int 0)] =
      CallResult.ok ⟨[("a__index", Value.int 0)], [("a", freshBar "a")]⟩ []
        [("a__index", Value.int 0)] := by decide

/-- Claim C8 counterexample: a composite key whose bar is in ignored_bars is
NOT stripped from the batch: it is merged into the plain state map and
passed to the engine-level hook (the `continue` of line 160 happens before
the pop of line 161). -/
theorem ignored_composite_key_not_stripped :
    applyCall (.ofSet ["a"]) ⟨[], []⟩ [("a__index", Value.int 0)] =
      CallResult.ok ⟨[("a__index", Value.int 0)], []⟩ [] [("a__index", Value.int 0)] := by
  decide

/-- Claim C9 counterexample: a bar-attribute update for "title" - an
attribute outside {index, total, message} - raises no error at all: the bar
is created, its title mutated and the bar hook fired. -/
theorem title_attr_update_raises_no_error :
    applyCall (.ofSet []) ⟨[], []⟩ [("foo__title", Value.str "X")] =
      CallResult.ok
        ⟨[], [("foo", [("title", Value.str "X"), ("index", Value.int (-1)),
                       ("total", Value.none), ("message", Value.none)])]⟩
        [⟨"foo", "title", Value.str "X", Value.str "foo"⟩] [] := by decide
theorem splitParts_ne_nil (l : List Char) : splitParts l ≠ [] := by
  match l with
  | [] => simp [splitParts]
  | [c] => simp [splitParts]
  | c₁ :: c₂ :: rest =>
    rw [splitParts]
    split
    · simp
    · cases h : splitParts (c₂ :: rest) <;> simp

theorem joinParts_splitParts : ∀ l : List Char, joinParts (splitParts l) = l
  | [] => rfl
  | [c] => rfl
  | c₁ :: c₂ :: rest => by
    rw [splitParts]
    split
    next h =>
      obtain ⟨h1, h2⟩ := h
      subst h1; subst h2
      have ih := joinParts_splitParts rest
      cases hs : splitParts rest with
      | nil => exact absurd hs (splitParts_ne_nil rest)
      | cons p ps =>
        rw [hs] at ih
        rw [joinParts]
        simpa using ih
    next h =>
      have ih := joinParts_splitParts (c₂ :: rest)
      cases hs : splitParts (c₂ :: rest) with
      | nil => exact absurd hs (splitParts_ne_nil _)
      | cons p ps =>
        rw [hs] at ih
        cases ps with
        | nil =>
          rw [joinParts] at ih ⊢
          rw [ih]
        | cons q qs =>
          rw [joinParts] at ih ⊢
          rw [← ih]
          simp

theorem splitParts_two {l b a : List Char} (h : splitParts l = [b, a]) :
    l = b ++ '_' :: '_' :: a := by
  have hj := joinParts_splitParts l
  rw [h] at hj
  rw [joinParts] at hj
  exact hj.symm

theorem string_eq_of_data {s t : String} (h : s.data = t.data) : s = t := by
  cases s; cases t; exact congrArg String.mk h

theorem keyOf_toList (e : BarEvent) :
    (keyOf e).toList = e.bar.toList ++ '_' :: '_' :: e.attr.toList := by
  have h1 : (keyOf e).toList = (e.bar.toList ++ ['_', '_']) ++ e.attr.toList := rfl
  rw [h1, List.append_assoc]
  rfl

theorem leadsWith_refl_append (l r : List Char) : leadsWith l (l ++ r) = true := by
  induction l with
  | nil => rfl
  | cons a as ih => simp [leadsWith, ih]

theorem endsWithTotal_keyOf_total (e : BarEvent) (h : e.attr = "total") :
    endsWithTotal (keyOf e) = true := by
  rw [endsWithTotal, keyOf_toList, h]
  rw [List.reverse_append]
  have h2 : ('_' :: '_' :: "total".toList).reverse = ['l','a','t','o','t','_','_'] := rfl
  rw [h2]
  have h3 : "total".toList.reverse = ['l','a','t','o','t'] := rfl
  rw [h3]
  simp [leadsWith]

theorem endsWithTotal_keyOf_index (e : BarEvent) (h : e.attr = "index") :
    endsWithTotal (keyOf e) = false := by
  rw [endsWithTotal, keyOf_toList, h]
  rw [List.reverse_append]
  have h2 : ('_' :: '_' :: "index".toList).reverse = ['x','e','d','n','i','_','_'] := rfl
  rw [h2]
  have h3 : "total".toList.reverse = ['l','a','t','o','t'] := rfl
  rw [h3]
  simp [leadsWith, show ('l' == 'x') = false from rfl]

theorem endsWithTotal_keyOf_message (e : BarEvent) (h : e.attr = "message") :
    endsWithTotal (keyOf e) = false := by
  rw [endsWithTotal, keyOf_toList, h]
  rw [List.reverse_append]
  have h2 : ('_' :: '_' :: "message".toList).reverse = ['e','g','a','s','s','e','m','_','_'] := rfl
  rw [h2]
  have h3 : "total".toList.reverse = ['l','a','t','o','t'] := rfl
  rw [h3]
  simp [leadsWith, show ('l' == 'e') = false from rfl]
theorem lookup_cons_self {β : Type} (k : String) (v : β) (l : List (String × β)) :
    List.lookup k ((k, v) :: l) = Option.some v := by
  simp [List.lookup]

theorem lookup_cons_ne {β : Type} {k a : String} (v : β) (l : List (String × β))
    (h : a ≠ k) : List.lookup a ((k, v) :: l) = List.lookup a l := by
  have hb : (a == k) = false := beq_eq_false_iff_ne.mpr h
  simp [List.lookup, hb]

theorem lookup_none_forall {β : Type} {a : String} {l : List (String × β)}
    (h : List.lookup a l = Option.none) : ∀ p ∈ l, p.1 ≠ a := by
  induction l with
  | nil => intro p hp; cases hp
  | cons q rest ih =>
    intro p hp
    by_cases hqa : a = q.1
    · exfalso
      obtain ⟨k, v⟩ := q
      rw [hqa] at h
      rw [lookup_cons_self] at h
      cases h
    · obtain ⟨k, v⟩ := q
      rw [lookup_cons_ne v rest hqa] at h
      rcases List.mem_cons.mp hp with hp | hp
      · subst hp
        simpa using fun he => hqa he.symm
      · exact ih h p hp

theorem lookup_none_any_false {β : Type} {a : String} {l : List (String × β)}
    (h : List.lookup a l = Option.none) : l.any (fun p => p.1 == a) = false := by
  rw [List.any_eq_false]
  intro p hp
  simpa using lookup_none_forall h p hp

theorem lookup_none_of_any_false {β : Type} {a : String} {l : List (String × β)}
    (h : l.any (fun p => p.1 == a) = false) : List.lookup a l = Option.none := by
  induction l with
  | nil => rfl
  | cons q rest ih =>
    obtain ⟨k, v⟩ := q
    simp only [List.any_cons, Bool.or_eq_false_iff] at h
    have hk : k ≠ a := by simpa using h.1
    rw [lookup_cons_ne v rest (fun he => hk he.symm), ih h.2]

theorem lookup_append_left_none {β : Type} {a : String} {l₁ : List (String × β)}
    (l₂ : List (String × β)) (h : List.lookup a l₁ = Option.none) :
    List.lookup a (l₁ ++ l₂) = List.lookup a l₂ := by
  induction l₁ with
  | nil => rfl
  | cons q rest ih =>
    obtain ⟨k, v⟩ := q
    by_cases hqa : a = k
    · rw [hqa] at h; rw [lookup_cons_self] at h; cases h
    · rw [lookup_cons_ne v rest hqa] at h
      rw [List.cons_append, lookup_cons_ne v _ hqa]
      exact ih h

theorem map_setF_eq_self {β : Type} (l : List (String × β)) (a : String)
    (f : String × β → String × β) (h : ∀ p ∈ l, p.1 ≠ a) :
    l.map (fun p => if p.1 = a then f p else p) = l := by
  induction l with
  | nil => rfl
  | cons q rest ih =>
    simp only [List.map_cons]
    rw [if_neg (h q (List.mem_cons_self q rest)), ih]
    intro p hp
    exact h p (List.mem_cons_of_mem q hp)

theorem setBarAttr_append_new (bars : Bars) (bar attr : String) (v : Value)
    (d : BarDict) (h : List.lookup bar bars = Option.none) :
    setBarAttr (bars ++ [(bar, d)]) bar attr v = bars ++ [(bar, setD d attr v)] := by
  rw [setBarAttr, List.map_append]
  have h2 : bars.map (fun p => if p.1 = bar then (p.1, setD p.2 attr v) else p) = bars :=
    map_setF_eq_self bars bar _ (lookup_none_forall h)
  rw [h2]
  simp [setBarAttr]

theorem lookup_map_set (m : List (String × Option Nat)) (bar : String)
    (h : Option Nat) (hany : m.any (fun p => p.1 == bar) = true) :
    List.lookup bar (m.map (fun p => if p.1 = bar then (p.1, h) else p)) =
      Option.some h := by
  induction m with
  | nil => simp at hany
  | cons q rest ih =>
    obtain ⟨k, v⟩ := q
    simp only [List.map_cons]
    by_cases hk : k = bar
    · subst hk
      rw [if_pos rfl]
      exact lookup_cons_self k h _
    · rw [if_neg hk]
      rw [lookup_cons_ne _ _ (fun he => hk he.symm)]
      apply ih
      simp only [List.any_cons] at hany
      simpa [hk] using hany

theorem lookup_setHandle (m : List (String × Option Nat)) (bar : String)
    (h : Option Nat) : List.lookup bar (setHandle m bar h) = Option.some h := by
  rw [setHandle]
  split
  next hany => exact lookup_map_set m bar h hany
  next hany =>
    have hf : m.any (fun p => p.1 == bar) = false := by
      rw [Bool.not_eq_true] at hany; exact hany
    rw [lookup_append_left_none _ (lookup_none_of_any_false hf)]
    exact lookup_cons_self bar h []
theorem pyMem_memB {bar : String} {ign : IgnoredBars} {t : Bool}
    (h : pyMem bar ign = Except.ok t) : memB bar ign = t := by
  cases ign with
  | noneV => cases h
  | allOthers => exact Except.ok.inj h
  | ofSet l => exact Except.ok.inj h

theorem processItem_base_ok {ign : IgnoredBars} {bars : Bars} {kw : Kw}
    {tr : List BarEvent} {key : String} {v : Value}
    {s₂ : Bars × Kw × List BarEvent}
    (h : processItem ign baseCb bars kw tr key v = Py.ok s₂) :
    (keyKeptB ign key = true ∧ s₂.2.1 = kw ∧ s₂.2.2 = tr) ∨
    (keyKeptB ign key = false ∧ s₂.2.1 = kw.filter (fun p => p.1 != key) ∧
      ∃ e, s₂.2.2 = tr ++ [e] ∧ keyOf e = key) := by
  rw [processItem] at h
  split at h
  next x heq =>
    left
    cases h
    refine ⟨?_, rfl, rfl⟩
    rw [keyKeptB, heq]
  next b a heq =>
    simp only [] at h
    split at h
    next m hm => cases h
    next hm =>
      left
      cases h
      refine ⟨?_, rfl, rfl⟩
      rw [keyKeptB, heq]
      exact pyMem_memB hm
    next hm =>
      simp only [baseCb] at h
      split at h
      next m hif => cases h
      next bars₂ hif =>
        split at h
        next hlk => cases h
        next d hlk =>
          split at h
          next hlk2 => cases h
          next old hlk2 =>
            right
            cases h
            refine ⟨?_, rfl, ⟨⟨(⟨b⟩ : String), (⟨a⟩ : String), v, old⟩, rfl, ?_⟩⟩
            · rw [keyKeptB, heq]
              exact pyMem_memB hm
            · apply string_eq_of_data
              have hsp := splitParts_two heq
              rw [String.toList] at hsp
              rw [hsp]
              show (b ++ ['_', '_']) ++ a = b ++ '_' :: '_' :: a
              simp
  next heq h1 h2 => cases h
theorem processItems_append {σ : Type} (ign : IgnoredBars)
    (cb : Bars → σ → BarEvent → Py σ) (as bs : List (String × Value))
    (bars : Bars) (kw : Kw) (ext : σ) :
    processItems ign cb (as ++ bs) bars kw ext =
      match processItems ign cb as bars kw ext with
      | Py.ok (b₂, k₂, e₂) => processItems ign cb bs b₂ k₂ e₂
      | Py.raised m s => Py.raised m s := by
  induction as generalizing bars kw ext with
  | nil => simp [processItems]
  | cons q rest ih =>
    obtain ⟨key, v⟩ := q
    rw [List.cons_append, processItems, processItems]
    cases processItem ign cb bars kw ext key v with
    | ok s₂ =>
      obtain ⟨b₂, k₂, e₂⟩ := s₂
      exact ih b₂ k₂ e₂
    | raised m s₂ => rfl

theorem processItems_base_trace (ign : IgnoredBars) (items : List (String × Value)) :
    ∀ (bars : Bars) (kw : Kw) (tr : List BarEvent) {bars₂ : Bars} {kw₂ : Kw}
      {tr₂ : List BarEvent},
      processItems ign baseCb items bars kw tr = Py.ok (bars₂, kw₂, tr₂) →
      ∃ ts, tr₂ = tr ++ ts ∧ List.Sublist (ts.map keyOf) (items.map Prod.fst) := by
  induction items with
  | nil =>
    intro bars kw tr bars₂ kw₂ tr₂ h
    rw [processItems] at h
    obtain ⟨rfl, rfl, rfl⟩ : bars = bars₂ ∧ kw = kw₂ ∧ tr = tr₂ := by simpa using h
    exact ⟨[], by simp, by simp⟩
  | cons q rest ih =>
    obtain ⟨key, v⟩ := q
    intro bars kw tr bars₂ kw₂ tr₂ h
    rw [processItems] at h
    rcases hpi : processItem ign baseCb bars kw tr key v with s₂ | ⟨m, s₂⟩
    · obtain ⟨b₂, k₂, t₂⟩ := s₂
      rw [hpi] at h
      obtain ⟨ts, hts, hsub⟩ := ih b₂ k₂ t₂ h
      rcases processItem_base_ok hpi with ⟨_, _, htr⟩ | ⟨_, _, e, htr, hke⟩
      · simp only at htr
        refine ⟨ts, ?_, ?_⟩
        · rw [hts, htr]
        · exact List.Sublist.cons key hsub
      · simp only at htr
        refine ⟨e :: ts, ?_, ?_⟩
        · rw [hts, htr]
          simp
        · rw [List.map_cons, hke]
          exact List.Sublist.cons₂ key hsub
    · rw [hpi] at h
      cases h

theorem processItems_base_kw (ign : IgnoredBars) (items : List (String × Value)) :
    ∀ (bars : Bars) (kw : Kw) (tr : List BarEvent) {bars₂ : Bars} {kw₂ : Kw}
      {tr₂ : List BarEvent},
      processItems ign baseCb items bars kw tr = Py.ok (bars₂, kw₂, tr₂) →
      kw₂ = kw.filter
        (fun p => keyKeptB ign p.1 || !((items.map Prod.fst).contains p.1)) := by
  induction items with
  | nil =>
    intro bars kw tr bars₂ kw₂ tr₂ h
    rw [processItems] at h
    obtain ⟨rfl, rfl, rfl⟩ : bars = bars₂ ∧ kw = kw₂ ∧ tr = tr₂ := by simpa using h
    simp
  | cons q rest ih =>
    obtain ⟨key, v⟩ := q
    intro bars kw tr bars₂ kw₂ tr₂ h
    rw [processItems] at h
    rcases hpi : processItem ign baseCb bars kw tr key v with s₂ | ⟨m, s₂⟩
    · obtain ⟨b₂, k₂, t₂⟩ := s₂
      rw [hpi] at h
      have hk₂ := ih b₂ k₂ t₂ h
      rcases processItem_base_ok hpi with ⟨hkept, hkw, _⟩ | ⟨hkept, hkw, _⟩
      · simp only at hkw
        rw [hkw] at hk₂
        rw [hk₂]
        apply List.filter_congr
        intro p hp
        by_cases hpk : p.1 = key
        · rw [hpk, hkept]
          simp
        · simp only [List.map_cons, List.contains_cons]
          rw [show (p.1 == key) = false from beq_eq_false_iff_ne.mpr hpk]
          simp
      · simp only at hkw
        rw [hkw] at hk₂
        rw [hk₂, List.filter_filter]
        apply List.filter_congr
        intro p hp
        by_cases hpk : p.1 = key
        · rw [hpk]
          simp [hkept]
        · simp only [List.map_cons, List.contains_cons]
          rw [show (p.1 == key) = false from beq_eq_false_iff_ne.mpr hpk]
          rw [show (p.1 != key) = true from by simp [hpk]]
          simp
    · rw [hpi] at h
      cases h

theorem mem_sortItems_keys {kw : Kw} {p : String × Value} (hp : p ∈ kw) :
    ((sortItems kw).map Prod.fst).contains p.1 = true := by
  have hm : p.1 ∈ (sortItems kw).map Prod.fst := by
    apply List.mem_map_of_mem
    rw [sortItems, List.mem_append]
    by_cases he : endsWithTotal p.1
    · left
      rw [List.mem_filter]
      exact ⟨hp, by simp [he]⟩
    · right
      rw [List.mem_filter]
      exact ⟨hp, by simp [he]⟩
  exact List.elem_eq_true_of_mem hm
/-- Claim C8 (amended): after the loop, self.callback receives exactly the
updates still in the batch, and exactly those are merged into the plain
state: composite keys whose bar update was applied are stripped, but a
composite key whose bar is skipped by the membership test stays in the
batch and is merged into the plain state map. -/
theorem callback_receives_remaining_batch (ign : IgnoredBars) (st : LoggerState)
    (kw : Kw) {st₂ : LoggerState} {tr : List BarEvent} {cbkw : Kw}
    (h : applyCall ign st kw = CallResult.ok st₂ tr cbkw) :
    cbkw = kw.filter (fun p => keyKeptB ign p.1) ∧
    st₂.plain = updatePlain st.plain cbkw := by
  rw [applyCall] at h
  rcases hpr : processItems ign baseCb (sortItems kw) st.bars kw [] with s₂ | ⟨m, s₂⟩
  · obtain ⟨b₂, k₂, t₂⟩ := s₂
    rw [hpr] at h
    obtain ⟨h1, h2, h3⟩ :
        (⟨updatePlain st.plain k₂, b₂⟩ : LoggerState) = st₂ ∧ t₂ = tr ∧ k₂ = cbkw := by
      simpa using h
    have hkchar := processItems_base_kw ign (sortItems kw) st.bars kw [] hpr
    subst h3
    constructor
    · rw [hkchar]
      apply List.filter_congr
      intro p hp
      rw [mem_sortItems_keys hp]
      simp
    · rw [← h1]
  · obtain ⟨b₃, k₃, t₃⟩ := s₂
    rw [hpr] at h
    cases h

theorem callback_receives_remaining_batch_witness :
    ([("a__index", Value.int 0), ("msg", Value.str "hi")] : Kw) =
      List.filter (fun p => keyKeptB (.ofSet ["a"]) p.1)
        [("a__index", Value.int 0), ("b__index", Value.int 1), ("msg", Value.str "hi")] ∧
    (LoggerState.mk [("a__index", Value.int 0), ("msg", Value.str "hi")]
        [("b", [("title", Value.str "b"), ("index", Value.int 1),
                ("total", Value.none), ("message", Value.none)])]).plain =
      updatePlain [] [("a__index", Value.int 0), ("msg", Value.str "hi")] :=
  @callback_receives_remaining_batch (.ofSet ["a"]) ⟨[], []⟩
    [("a__index", Value.int 0), ("b__index", Value.int 1), ("msg", Value.str "hi")]
    ⟨[("a__index", Value.int 0), ("msg", Value.str "hi")],
     [("b", [("title", Value.str "b"), ("index", Value.int 1),
             ("total", Value.none), ("message", Value.none)])]⟩
    [⟨"b", "index", Value.int 1, Value.int (-1)⟩]
    [("a__index", Value.int 0), ("msg", Value.str "hi")]
    (by decide)
/-- Claim C1: within one __call__, every applied update whose key denotes a
total attribute of a bar is applied (and its bars_callback call made) before
any update denoting an index or message attribute of any bar, and the
non-total bar updates are processed in the caller-supplied key order. -/
theorem applyCall_total_before_index_message (ign : IgnoredBars)
    (st : LoggerState) (kw : Kw) {st₂ : LoggerState} {tr : List BarEvent}
    {cbkw : Kw} (h : applyCall ign st kw = CallResult.ok st₂ tr cbkw) :
    (∀ i j (hi : i < tr.length) (hj : j < tr.length),
        (tr.get ⟨i, hi⟩).attr = "total" →
        ((tr.get ⟨j, hj⟩).attr = "index" ∨ (tr.get ⟨j, hj⟩).attr = "message") →
        i < j) ∧
    List.Sublist ((tr.filter (fun e => !endsWithTotal (keyOf e))).map keyOf)
      (kw.map Prod.fst) := by
  rw [applyCall] at h
  rcases hpr : processItems ign baseCb (sortItems kw) st.bars kw [] with s₂ | ⟨m, s₂⟩
  case _ =>
    obtain ⟨b₂, k₂, t₂⟩ := s₂
    rw [hpr] at h
    have ht₂ : t₂ = tr := by
      have h4 : (⟨updatePlain st.plain k₂, b₂⟩ : LoggerState) = st₂ ∧ t₂ = tr ∧
          k₂ = cbkw := by simpa using h
      exact h4.2.1
    subst ht₂
    clear h
    rw [sortItems, processItems_append] at hpr
    rcases hg1 : processItems ign baseCb (kw.filter fun p => endsWithTotal p.1)
        st.bars kw [] with s₁ | ⟨m, s₁⟩
    case _ =>
      obtain ⟨bm, km, tm⟩ := s₁
      rw [hg1] at hpr
      obtain ⟨ts1, hts1, hsub1⟩ := processItems_base_trace ign _ st.bars kw [] hg1
      obtain ⟨ts2, hts2, hsub2⟩ := processItems_base_trace ign _ bm km tm hpr
      rw [hts1] at hts2
      simp only [List.nil_append] at hts2
      have hA : ∀ e ∈ ts1, endsWithTotal (keyOf e) = true := by
        intro e he
        have hme : keyOf e ∈ (kw.filter fun p => endsWithTotal p.1).map Prod.fst :=
          hsub1.subset (List.mem_map_of_mem keyOf he)
        obtain ⟨p, hp, hpe⟩ := List.mem_map.mp hme
        rw [← hpe]
        exact (List.mem_filter.mp hp).2
      have hB : ∀ e ∈ ts2, endsWithTotal (keyOf e) = false := by
        intro e he
        have hme : keyOf e ∈ (kw.filter fun p => !endsWithTotal p.1).map Prod.fst :=
          hsub2.subset (List.mem_map_of_mem keyOf he)
        obtain ⟨p, hp, hpe⟩ := List.mem_map.mp hme
        have h5 := (List.mem_filter.mp hp).2
        rw [← hpe]
        simpa using h5
      subst hts2
      constructor
      · intro i j hi hj hti htj
        have hilen : i < ts1.length := by
          by_contra hni
          push_neg at hni
          have hi2 : i - ts1.length < ts2.length := by
            have hlen := hi
            rw [List.length_append] at hlen
            omega
          have hget : (ts1 ++ ts2).get ⟨i, hi⟩ = ts2.get ⟨i - ts1.length, hi2⟩ := by
            rw [List.get_eq_getElem, List.get_eq_getElem,
              List.getElem_append_right hni]
          have hmem : (ts1 ++ ts2).get ⟨i, hi⟩ ∈ ts2 := by
            rw [hget]
            exact List.get_mem ts2 _ _
          have hfalse := hB _ hmem
          rw [endsWithTotal_keyOf_total _ hti] at hfalse
          cases hfalse
        have hjlen : ts1.length ≤ j := by
          by_contra hnj
          push_neg at hnj
          have hget : (ts1 ++ ts2).get ⟨j, hj⟩ = ts1.get ⟨j, hnj⟩ := by
            rw [List.get_eq_getElem, List.get_eq_getElem,
              List.getElem_append_left hnj]
          have hmem : (ts1 ++ ts2).get ⟨j, hj⟩ ∈ ts1 := by
            rw [hget]
            exact List.get_mem ts1 _ _
          have htrue := hA _ hmem
          rcases htj with hidx | hmsg
          · rw [endsWithTotal_keyOf_index _ hidx] at htrue
            cases htrue
          · rw [endsWithTotal_keyOf_message _ hmsg] at htrue
            cases htrue
        omega
      · rw [List.filter_append]
        have h1 : ts1.filter (fun e => !endsWithTotal (keyOf e)) = [] := by
          rw [List.filter_eq_nil_iff]
          intro e he
          rw [hA e he]
          simp
        have h2 : ts2.filter (fun e => !endsWithTotal (keyOf e)) = ts2 := by
          rw [List.filter_eq_self]
          intro e he
          rw [hB e he]
          rfl
        rw [h1, h2, List.nil_append]
        exact hsub2.trans ((List.filter_sublist _).map Prod.fst)
    case _ =>
      rw [hg1] at hpr
      cases hpr
  case _ =>
    obtain ⟨b₃, k₃, t₃⟩ := s₂
    rw [hpr] at h
    cases h
theorem applyCall_total_before_index_message_witness :
    (∀ i j (hi : i < ([⟨"a", "total", Value.int 5, Value.none⟩,
          ⟨"b", "index", Value.int 0, Value.int (-1)⟩] : List BarEvent).length)
        (hj : j < ([⟨"a", "total", Value.int 5, Value.none⟩,
          ⟨"b", "index", Value.int 0, Value.int (-1)⟩] : List BarEvent).length),
        (([⟨"a", "total", Value.int 5, Value.none⟩,
          ⟨"b", "index", Value.int 0, Value.int (-1)⟩] : List BarEvent).get
            ⟨i, hi⟩).attr = "total" →
        ((([⟨"a", "total", Value.int 5, Value.none⟩,
          ⟨"b", "index", Value.int 0, Value.int (-1)⟩] : List BarEvent).get
            ⟨j, hj⟩).attr = "index" ∨
         (([⟨"a", "total", Value.int 5, Value.none⟩,
          ⟨"b", "index", Value.int 0, Value.int (-1)⟩] : List BarEvent).get
            ⟨j, hj⟩).attr = "message") →
        i < j) ∧
    List.Sublist
      ((([⟨"a", "total", Value.int 5, Value.none⟩,
          ⟨"b", "index", Value.int 0, Value.int (-1)⟩] : List BarEvent).filter
          (fun e => !endsWithTotal (keyOf e))).map keyOf)
      (([("b__index", Value.int 0), ("a__total", Value.int 5)] : Kw).map Prod.fst) :=
  @applyCall_total_before_index_message (.ofSet []) ⟨[], []⟩
    [("b__index", Value.int 0), ("a__total", Value.int 5)]
    ⟨[], [("a", [("title", Value.str "a"), ("index", Value.int (-1)),
                 ("total", Value.int 5), ("message", Value.none)]),
          ("b", [("title", Value.str "b"), ("index", Value.int 0),
                 ("total", Value.none), ("message", Value.none)])]⟩
    [⟨"a", "total", Value.int 5, Value.none⟩,
     ⟨"b", "index", Value.int 0, Value.int (-1)⟩]
    []
    (by decide)
theorem processItem_new_bar (s : List String) (bars : Bars) (key bar attr : String)
    (v : Value) (hsplit : splitParts key.toList = [bar.toList, attr.toList])
    (hns : bar ∉ s) (hnb : List.lookup bar bars = Option.none) :
    processItem (.ofSet s) baseCb bars [(key, v)] [] key v =
      match List.lookup attr (freshBar bar) with
      | Option.some old =>
        Py.ok (bars ++ [(bar, setD (freshBar bar) attr v)], [],
          [⟨bar, attr, v, old⟩])
      | Option.none => Py.raised "KeyError" (bars ++ [(bar, freshBar bar)], [], []) := by
  have hmkb : (⟨bar.toList⟩ : String) = bar := rfl
  have hmka : (⟨attr.toList⟩ : String) = attr := rfl
  have hc : s.contains bar = false := by
    cases hcb : s.contains bar
    · rfl
    · exact absurd (List.mem_of_elem_eq_true hcb) hns
  have hany : bars.any (fun p => p.1 == bar) = false := lookup_none_any_false hnb
  have hlk : List.lookup bar (bars ++ [(bar, freshBar bar)]) =
      Option.some (freshBar bar) := by
    rw [lookup_append_left_none _ hnb]
    exact lookup_cons_self bar _ []
  simp only [processItem, hsplit, hmkb, hmka, pyMem, hc, hany]
  rw [if_neg Bool.false_ne_true]
  have hfil : List.filter (fun p => p.1 != key) [(key, v)] = [] := by simp
  simp only [hlk, hfil, baseCb, List.nil_append]
  cases hattr : List.lookup attr (freshBar bar) with
  | none => rfl
  | some old =>
    rw [setBarAttr_append_new bars bar attr v (freshBar bar) hnb]

theorem sortItems_single (p : String × Value) : sortItems [p] = [p] := by
  rw [sortItems]
  by_cases he : endsWithTotal p.1
  · simp [he]
  · simp [he]

/-- Claim C5 (amended): a list/tuple/set ignored_bars acts as a blacklist in
__call__ (matching the constructor docstring, not bar_is_ignored): a
composite update whose bar IS in the set is skipped - no registry mutation,
no bar hook, and the key stays in the batch (merged into plain state) -
while a bar NOT in the set is tracked: here, a fresh bar is created and its
index attribute set, with one bar hook call. -/
theorem explicitSet_acts_as_blacklist (s : List String) (st : LoggerState)
    (key bar attr : String) (v : Value)
    (hsplit : splitParts key.toList = [bar.toList, attr.toList]) :
    (bar ∈ s →
      applyCall (.ofSet s) st [(key, v)] =
        CallResult.ok ⟨updatePlain st.plain [(key, v)], st.bars⟩ [] [(key, v)]) ∧
    (bar ∉ s → List.lookup bar st.bars = Option.none → attr = "index" →
      applyCall (.ofSet s) st [(key, v)] =
        CallResult.ok ⟨st.plain, st.bars ++ [(bar, setD (freshBar bar) "index" v)]⟩
          [⟨bar, "index", v, Value.int (-1)⟩] []) := by
  have hmkb : (⟨bar.toList⟩ : String) = bar := rfl
  constructor
  · intro hmem
    have hc : s.contains bar = true := List.elem_eq_true_of_mem hmem
    rw [applyCall, sortItems_single, processItems]
    have hpi : processItem (.ofSet s) baseCb st.bars [(key, v)] [] key v =
        Py.ok (st.bars, [(key, v)], []) := by
      simp only [processItem, hsplit, hmkb, pyMem, hc]
    rw [hpi]
    rfl
  · intro hns hnb hattr
    subst hattr
    rw [applyCall, sortItems_single, processItems]
    rw [processItem_new_bar s st.bars key bar "index" v hsplit hns hnb]
    have hidx : List.lookup "index" (freshBar bar) = Option.some (Value.int (-1)) := rfl
    rw [hidx]
    rfl

/-- Claim C9 (amended): a bar-attribute update for an attribute that is not
a key of the bar record raises a KeyError (line 165), but the State is NOT
left unchanged: the fresh bar created at lines 163-164 stays in the
registry when the exception propagates. -/
theorem unknown_attr_keyError_after_mutation (s : List String) (st : LoggerState)
    (key bar attr : String) (v : Value)
    (hsplit : splitParts key.toList = [bar.toList, attr.toList])
    (hns : bar ∉ s) (hnb : List.lookup bar st.bars = Option.none)
    (hattr : List.lookup attr (freshBar bar) = Option.none) :
    applyCall (.ofSet s) st [(key, v)] =
      CallResult.raised "KeyError" ⟨st.plain, st.bars ++ [(bar, freshBar bar)]⟩ [] := by
  rw [applyCall, sortItems_single, processItems]
  rw [processItem_new_bar s st.bars key bar attr v hsplit hns hnb, hattr]
/-- Claim C3: an index update with new_index < old_index makes
TqdmProgressBarLogger.bars_callback discard any live tqdm bar and create a
fresh one, then immediately advance the fresh handle by new_index + 1; no
advance is ever issued on a handle from before the restart. -/
theorem tqdm_restart_fresh_bar (bars : Bars) (t : TqdmExtra) (bar : String)
    (v o : Int) (infos : BarDict) (tot ttl msg : Value)
    (hb : List.lookup bar bars = Option.some infos)
    (ht : List.lookup "total" infos = Option.some tot)
    (httl : List.lookup "title" infos = Option.some ttl)
    (hm : List.lookup "message" infos = Option.some msg)
    (hvo : v < o) :
    match tqdmBarsCallback bars t ⟨bar, "index", Value.int v, Value.int o⟩ with
    | Py.ok t₂ => ∃ h pre,
        t₂.events = t.events ++ pre ++
          [RenderEvent.create bar h tot ttl msg,
           RenderEvent.advance bar h (v + 1)] ∧
        (∀ b₂ h₂ d, RenderEvent.advance b₂ h₂ d ∈ pre → False) ∧
        (∀ h₀, List.lookup bar t.tqdmBars = Option.some (Option.some h₀) →
          RenderEvent.close bar h₀ ∈ pre)
    | Py.raised _ _ => False := by
  have hge : decide (o ≤ v) = false := decide_eq_false (not_le.mpr hvo)
  rcases hlk : List.lookup bar t.tqdmBars with _ | oh
  · simp [tqdmBarsCallback, hlk, newTqdmBar, closeTqdmBar, advanceOn,
      pyGe, pyAdd1, hb, ht, httl, hm, lookup_setHandle, hge]
    try simp [lookup_setHandle, hb, ht, httl, hm, hge]
    exact ⟨t.nextId + 1,
      [RenderEvent.create bar t.nextId tot ttl msg,
       RenderEvent.close bar t.nextId], by simp, by simp⟩
  · rcases oh with _ | h₀
    · simp [tqdmBarsCallback, hlk, newTqdmBar, closeTqdmBar, advanceOn,
        pyGe, pyAdd1, hb, ht, httl, hm, lookup_setHandle, hge]
      try simp [lookup_setHandle, hb, ht, httl, hm, hge]
      exact ⟨t.nextId + 1,
        [RenderEvent.create bar t.nextId tot ttl msg,
         RenderEvent.close bar t.nextId], by simp, by simp⟩
    · simp [tqdmBarsCallback, hlk, newTqdmBar, closeTqdmBar, advanceOn,
        pyGe, pyAdd1, hb, ht, httl, hm, lookup_setHandle, hge]
      try simp [lookup_setHandle, hb, ht, httl, hm, hge]
      exact ⟨t.nextId, [RenderEvent.close bar h₀], by simp, by simp⟩
theorem tqdm_restart_fresh_bar_witness :
    match tqdmBarsCallback
        [("b", [("title", Value.str "b"), ("index", Value.int 0),
                ("total", Value.int 9), ("message", Value.none)])]
        ⟨[("b", Option.some 7)], 8, []⟩
        ⟨"b", "index", Value.int 0, Value.int 5⟩ with
    | Py.ok t₂ => ∃ h pre,
        t₂.events = (⟨[("b", Option.some 7)], 8, []⟩ : TqdmExtra).events ++ pre ++
          [RenderEvent.create "b" h (Value.int 9) (Value.str "b") Value.none,
           RenderEvent.advance "b" h (0 + 1)] ∧
        (∀ b₂ h₂ d, RenderEvent.advance b₂ h₂ d ∈ pre → False) ∧
        (∀ h₀, List.lookup "b" (⟨[("b", Option.some 7)], 8, []⟩ : TqdmExtra).tqdmBars =
            Option.some (Option.some h₀) →
          RenderEvent.close "b" h₀ ∈ pre)
    | Py.raised _ _ => False :=
  tqdm_restart_fresh_bar
    [("b", [("title", Value.str "b"), ("index", Value.int 0),
            ("total", Value.int 9), ("message", Value.none)])]
    ⟨[("b", Option.some 7)], 8, []⟩ "b" 0 5
    [("title", Value.str "b"), ("index", Value.int 0),
     ("total", Value.int 9), ("message", Value.none)]
    (Value.int 9) (Value.str "b") Value.none rfl rfl rfl rfl (by decide)

theorem explicitSet_acts_as_blacklist_witness :
    ("a" ∈ ["x"] →
      applyCall (.ofSet ["x"]) ⟨[], []⟩ [("a__index", Value.int 7)] =
        CallResult.ok ⟨updatePlain [] [("a__index", Value.int 7)], []⟩ []
          [("a__index", Value.int 7)]) ∧
    ("a" ∉ ["x"] → List.lookup "a" ([] : Bars) = Option.none → "index" = "index" →
      applyCall (.ofSet ["x"]) ⟨[], []⟩ [("a__index", Value.int 7)] =
        CallResult.ok ⟨[], [] ++ [("a", setD (freshBar "a") "index" (Value.int 7))]⟩
          [⟨"a", "index", Value.int 7, Value.int (-1)⟩] []) :=
  explicitSet_acts_as_blacklist ["x"] ⟨[], []⟩ "a__index" "a" "index"
    (Value.int 7) (by decide)

theorem unknown_attr_keyError_after_mutation_witness :
    applyCall (.ofSet []) ⟨[], []⟩ [("foo__junk", Value.int 1)] =
      CallResult.raised "KeyError" ⟨[], [] ++ [("foo", freshBar "foo")]⟩ [] :=
  unknown_attr_keyError_after_mutation [] ⟨[], []⟩ "foo__junk" "foo" "junk"
    (Value.int 1) (by decide) (by decide) rfl rfl
